import Mathlib

/-!
Shallow embedding of the Solana counter program in `src/src/lib.rs`
(crate `counter_program`): a two-instruction program that initializes a
counter account holding one little-endian `u64` and increments it with
overflow checking.

Bytes are modelled as `Fin 256`, 64-bit values as `Nat` with explicit
`2 ^ 64` bounds where overflow matters.  Account state is threaded
explicitly: every handler returns the `ProgramResult` paired with the
resulting account list, so that error paths show exactly what (if
anything) was written before the failure.
-/

/-- A byte, as stored in account data and instruction payloads. -/
abbrev Byte := Fin 256

/-- Truncate a natural number to a byte (`n as u8` / `n % 256`). -/
def natToByte (n : Nat) : Byte := ⟨n % 256, Nat.mod_lt _ (by norm_num)⟩

/-- The little-endian `u64` byte encoding used by borsh for the `count`
field: byte `i` is `(v >> (8*i)) & 0xFF`.  Mirrors `u64::to_le_bytes`. -/
def u64ToLeBytes (v : Nat) : List Byte :=
  [natToByte v, natToByte (v / 256), natToByte (v / 65536),
   natToByte (v / 16777216), natToByte (v / 4294967296),
   natToByte (v / 1099511627776), natToByte (v / 281474976710656),
   natToByte (v / 72057594037927936)]

/-- The value of a little-endian byte string (inverse of `u64ToLeBytes`
on 8-byte strings).  Mirrors `u64::from_le_bytes` / borsh `u64` reads. -/
def leValue (bs : List Byte) : Nat :=
  bs.foldr (fun b acc => b.val + 256 * acc) 0

/-- Errors of `solana_program::program_error::ProgramError` that this
program (or the runtime calls it makes) can surface, plus
`ArithmeticOverflow`, which the enum also provides.
`CreateAccountFailure` stands for whatever error the invoked system
program's `create_account` returns. -/
inductive ProgramError where
  | InvalidInstructionData
  | IncorrectProgramId
  | InvalidAccountData
  | BorshIoError
  | NotEnoughAccountKeys
  | CreateAccountFailure
  | ArithmeticOverflow
deriving DecidableEq, Repr

/-- `solana_program::account_info::AccountInfo`: the fields this program
reads or writes (`key`, `owner`, `lamports`, `data`).  Pubkeys are
modelled as `Nat`. -/
structure AccountInfo where
  key : Nat
  owner : Nat
  lamports : Nat
  data : List Byte
deriving DecidableEq, Repr

/-- `struct CounterAccount { count: u64 }` from the source. -/
structure CounterAccount where
  count : Nat
deriving DecidableEq, Repr

/-- `enum CounterInstruction { InitializeCounter { initial_value: u64 }, IncrementCounter }`. -/
inductive CounterInstruction where
  | InitializeCounter (initial_value : Nat)
  | IncrementCounter
deriving DecidableEq, Repr

/-- Borsh `CounterInstruction::try_from_slice`: a one-byte enum tag
(0 = `InitializeCounter`, 1 = `IncrementCounter`), for tag 0 followed by
a little-endian `u64`; `try_from_slice` fails unless the input is fully
consumed, so exactly 9 bytes for tag 0 and exactly 1 byte for tag 1. -/
def counterInstructionTryFromSlice (bs : List Byte) : Option CounterInstruction :=
  match bs with
  | [] => none
  | tag :: rest =>
    if tag.val = 0 then
      if rest.length = 8 then some (.InitializeCounter (leValue rest)) else none
    else if tag.val = 1 then
      if rest.length = 0 then some .IncrementCounter else none
    else none

/-- Borsh `CounterAccount::try_from_slice`: reads one little-endian
`u64` and fails unless the input is exactly 8 bytes (shorter inputs fail
the read, longer inputs fail the full-consumption check).  The borsh
`io::Error` is converted by `?` into `ProgramError::BorshIoError`. -/
def counterAccountTryFromSlice (bs : List Byte) : Except ProgramError CounterAccount :=
  if bs.length = 8 then .ok ⟨leValue bs⟩ else .error .BorshIoError

/-- Borsh `CounterAccount::serialize` into a `&mut [u8]` buffer: writes
the 8 little-endian bytes of `count`.  `io::Write` for byte slices
writes as many bytes as fit and `write_all` fails with an error if the
buffer is shorter than 8; the bytes that fit are still written. -/
def serializeWrite (c : CounterAccount) (buf : List Byte) :
    Except ProgramError Unit × List Byte :=
  let bytes := u64ToLeBytes c.count
  if 8 ≤ buf.length then (.ok (), bytes ++ buf.drop 8)
  else (.error .BorshIoError, bytes.take buf.length)

/-- `u64::checked_add`: `none` exactly when the mathematical sum exceeds
`u64::MAX`. -/
def checkedAdd (a b : Nat) : Option Nat :=
  if a + b < 2 ^ 64 then some (a + b) else none

/-- The pubkey of the system program (an arbitrary fixed model value;
freshly created accounts are owned by it). -/
def systemProgramId : Nat := 0

/-- `Rent::get()?.minimum_balance(space)` with the cluster-default rent
sysvar: `(ACCOUNT_STORAGE_OVERHEAD + space) * lamports_per_byte_year *
exemption_threshold` = `(128 + space) * 3480 * 2`. -/
def rentMinimumBalance (space : Nat) : Nat := (128 + space) * 3480 * 2

/-- The runtime semantics of `invoke(system_instruction::create_account
(payer, to, lamports, space, owner), ...)`: fails unless the target
account is fresh (no lamports, no data, system-owned) and the payer can
fund it; on success it moves `lamports` from the payer to the target,
allocates `space` zeroed bytes of data, and assigns `owner`. -/
def createAccount (payer dest : AccountInfo) (lamports space owner : Nat) :
    Except ProgramError (AccountInfo × AccountInfo) :=
  if dest.lamports = 0 ∧ dest.data = [] ∧ dest.owner = systemProgramId ∧
      lamports ≤ payer.lamports then
    .ok ({ payer with lamports := payer.lamports - lamports },
         { dest with lamports := lamports, owner := owner,
                     data := List.replicate space (natToByte 0) })
  else .error .CreateAccountFailure

/-- `process_initialize_counter` from the source: takes the counter
account, the payer and the system program (failing with
`NotEnoughAccountKeys` when accounts are missing), creates the counter
account with 8 bytes of space at the rent-exempt balance via CPI, then
serializes `CounterAccount { count: initial_value }` into its data. -/
def process_initialize_counter (program_id : Nat) (accounts : List AccountInfo)
    (initial_value : Nat) : Except ProgramError Unit × List AccountInfo :=
  match accounts with
  | counter_account :: payer_account :: system_program :: rest =>
    let account_space : Nat := 8
    let required_lamports := rentMinimumBalance account_space
    match createAccount payer_account counter_account required_lamports
        account_space program_id with
    | .error e => (.error e, accounts)
    | .ok (payer', counter') =>
      match serializeWrite ⟨initial_value⟩ counter'.data with
      | (.ok _, data') =>
        (.ok (), { counter' with data := data' } :: payer' :: system_program :: rest)
      | (.error e, data') =>
        (.error e, { counter' with data := data' } :: payer' :: system_program :: rest)
  | _ => (.error .NotEnoughAccountKeys, accounts)

/-- `process_increment_counter` from the source: takes the counter
account, rejects it with `IncorrectProgramId` unless it is owned by the
program, deserializes `CounterAccount` from its data, adds 1 with
`checked_add` (failing with `InvalidAccountData` on overflow), and
serializes the updated value back. -/
def process_increment_counter (program_id : Nat) (accounts : List AccountInfo) :
    Except ProgramError Unit × List AccountInfo :=
  match accounts with
  | [] => (.error .NotEnoughAccountKeys, [])
  | counter_account :: rest =>
    if counter_account.owner ≠ program_id then
      (.error .IncorrectProgramId, counter_account :: rest)
    else
      match counterAccountTryFromSlice counter_account.data with
      | .error e => (.error e, counter_account :: rest)
      | .ok counter_data =>
        match checkedAdd counter_data.count 1 with
        | none => (.error .InvalidAccountData, counter_account :: rest)
        | some count' =>
          match serializeWrite ⟨count'⟩ counter_account.data with
          | (.ok _, data') => (.ok (), { counter_account with data := data' } :: rest)
          | (.error e, data') =>
            (.error e, { counter_account with data := data' } :: rest)

/-- `process_instruction` from the source: decodes the instruction data
(mapping any borsh failure to `InvalidInstructionData`) and dispatches
to the matching handler. -/
def process_instruction (program_id : Nat) (accounts : List AccountInfo)
    (instruction_data : List Byte) : Except ProgramError Unit × List AccountInfo :=
  match counterInstructionTryFromSlice instruction_data with
  | none => (.error .InvalidInstructionData, accounts)
  | some (.InitializeCounter initial_value) =>
    process_initialize_counter program_id accounts initial_value
  | some .IncrementCounter => process_increment_counter program_id accounts

/-- A payload is a valid tagged encoding iff it is tag byte 0 followed
by exactly 8 bytes (any 8 bytes encode some 64-bit value), or exactly
the tag byte 1. -/
def IsValidEncoding (bs : List Byte) : Prop :=
  (bs.length = 9 ∧ bs.head? = some (natToByte 0)) ∨ bs = [natToByte 1]

instance (bs : List Byte) : Decidable (IsValidEncoding bs) := by
  unfold IsValidEncoding; infer_instance

/-- Apply the increment instruction `n` times in sequence, each
application a separate invocation of `process_increment_counter`,
stopping at the first error. -/
def incrementN (program_id : Nat) (n : Nat) (accounts : List AccountInfo) :
    Except ProgramError Unit × List AccountInfo :=
  match n with
  | 0 => (.ok (), accounts)
  | n + 1 =>
    match process_increment_counter program_id accounts with
    | (.ok _, st) => incrementN program_id n st
    | (.error e, st) => (.error e, st)

/-! ### Basic facts about the byte encoding -/

theorem u64ToLeBytes_length (v : Nat) : (u64ToLeBytes v).length = 8 := rfl

theorem leValue_u64ToLeBytes (v : Nat) : leValue (u64ToLeBytes v) = v % 2 ^ 64 := by
  simp only [u64ToLeBytes, leValue, natToByte, List.foldr]
  omega

theorem leValue_u64ToLeBytes_of_lt {v : Nat} (h : v < 2 ^ 64) :
    leValue (u64ToLeBytes v) = v := by
  rw [leValue_u64ToLeBytes, Nat.mod_eq_of_lt h]

theorem leValue_lt (bs : List Byte) : leValue bs < 256 ^ bs.length := by
  induction bs with
  | nil => simp [leValue]
  | cons b t ih =>
    have hb : b.val < 256 := b.isLt
    simp only [leValue, List.foldr, List.length_cons] at *
    calc b.val + 256 * List.foldr (fun b acc => b.val + 256 * acc) 0 t
        < 256 + 256 * List.foldr (fun b acc => b.val + 256 * acc) 0 t := by omega
      _ ≤ 256 + 256 * (256 ^ t.length - 1) := by
          have := ih
          omega
      _ ≤ 256 ^ (t.length + 1) := by
          rw [pow_succ]
          have : 1 ≤ 256 ^ t.length := Nat.one_le_pow _ _ (by norm_num)
          omega

theorem leValue_lt_2_64 {bs : List Byte} (h : bs.length = 8) :
    leValue bs < 2 ^ 64 := by
  have := leValue_lt bs
  rw [h] at this
  norm_num at this ⊢
  exact this

/-! ### Behaviour of the increment handler -/

theorem u64ToLeBytes_drop8 (v : Nat) : (u64ToLeBytes v).drop 8 = [] := rfl

theorem process_increment_counter_ok (program_id v : Nat) (counter : AccountInfo)
    (rest : List AccountInfo) (howner : counter.owner = program_id)
    (hdata : counter.data = u64ToLeBytes v) (hv : v + 1 < 2 ^ 64) :
    process_increment_counter program_id (counter :: rest) =
      (.ok (), { counter with data := u64ToLeBytes (v + 1) } :: rest) := by
  have hv' : v < 2 ^ 64 := by omega
  have hv2 : v + 1 < 18446744073709551616 := by omega
  simp [process_increment_counter, howner, hdata, counterAccountTryFromSlice,
    u64ToLeBytes_length, leValue_u64ToLeBytes_of_lt hv', checkedAdd, hv2,
    serializeWrite, u64ToLeBytes_drop8]

/-- C2: starting from a counter account that holds the serialized value
`v` (as written by initialization) and is owned by the program, applying
the increment operation `n` times succeeds and stores `v + n`, whenever
`v + n` does not exceed the maximum 64-bit unsigned value. -/
theorem claim_C2_incrementN_adds (program_id v n : Nat) (counter : AccountInfo)
    (rest : List AccountInfo) (howner : counter.owner = program_id)
    (hdata : counter.data = u64ToLeBytes v) (hvn : v + n < 2 ^ 64) :
    incrementN program_id n (counter :: rest) =
      (.ok (), { counter with data := u64ToLeBytes (v + n) } :: rest) := by
  induction n generalizing v counter with
  | zero =>
    have h0 : v + 0 = v := rfl
    simp only [incrementN, h0, ← hdata]
  | succ n ih =>
    have hstep := process_increment_counter_ok program_id v counter rest howner
      hdata (by omega)
    have h := ih (v + 1) { counter with data := u64ToLeBytes (v + 1) }
      (by simpa using howner) rfl (by omega)
    have hadd : v + 1 + n = v + (n + 1) := by omega
    rw [hadd] at h
    simp only [incrementN, hstep, h]

/-- C3: for a counter account owned by the program whose data is a
well-formed 8-byte record, the increment fails exactly when the stored
count is `u64::MAX`, and in that case it returns an error leaving the
account data untouched (it does not wrap to zero). -/
theorem claim_C3_increment_overflow_iff (program_id : Nat) (counter : AccountInfo)
    (rest : List AccountInfo) (howner : counter.owner = program_id)
    (hlen : counter.data.length = 8) :
    ((process_increment_counter program_id (counter :: rest)).1 ≠ .ok () ↔
      leValue counter.data = 2 ^ 64 - 1) ∧
    (leValue counter.data = 2 ^ 64 - 1 →
      process_increment_counter program_id (counter :: rest) =
        (.error .InvalidAccountData, counter :: rest)) := by
  have hlt := leValue_lt_2_64 hlen
  have e64 : (2 : Nat) ^ 64 = 18446744073709551616 := by norm_num
  have e : (2 : Nat) ^ 64 - 1 = 18446744073709551615 := by norm_num
  rw [e64] at hlt
  rw [e]
  by_cases hmax : leValue counter.data = 18446744073709551615
  · have hno : ¬ (leValue counter.data + 1 < 18446744073709551616) := by omega
    have hrun : process_increment_counter program_id (counter :: rest) =
        (.error .InvalidAccountData, counter :: rest) := by
      simp [process_increment_counter, howner, counterAccountTryFromSlice, hlen,
        checkedAdd, hno]
    rw [hrun]
    simp [hmax]
  · have hyes : leValue counter.data + 1 < 18446744073709551616 := by omega
    have hrun : (process_increment_counter program_id (counter :: rest)).1 = .ok () := by
      simp [process_increment_counter, howner, counterAccountTryFromSlice, hlen,
        checkedAdd, hyes, serializeWrite]
    refine ⟨?_, fun h => absurd h hmax⟩
    rw [hrun]
    simp [hmax]

/-- C4: incrementing a counter account not owned by the program fails
with `IncorrectProgramId` and leaves every account unchanged. -/
theorem claim_C4_increment_wrong_owner (program_id : Nat) (counter : AccountInfo)
    (rest : List AccountInfo) (howner : counter.owner ≠ program_id) :
    process_increment_counter program_id (counter :: rest) =
      (.error .IncorrectProgramId, counter :: rest) := by
  simp [process_increment_counter, howner]

/-- C10: incrementing a program-owned counter account whose data is not
exactly 8 bytes fails at deserialization (with the borsh I/O error) and
leaves every account unchanged. -/
theorem claim_C10_increment_bad_length (program_id : Nat) (counter : AccountInfo)
    (rest : List AccountInfo) (howner : counter.owner = program_id)
    (hlen : counter.data.length ≠ 8) :
    process_increment_counter program_id (counter :: rest) =
      (.error .BorshIoError, counter :: rest) := by
  simp [process_increment_counter, howner, counterAccountTryFromSlice, hlen]

/-! ### Behaviour of the initialize handler -/

theorem process_initialize_counter_ok (program_id v : Nat)
    (counter payer sys : AccountInfo) (rest : List AccountInfo)
    (hlam : counter.lamports = 0) (hdat : counter.data = [])
    (hown : counter.owner = systemProgramId)
    (hpay : rentMinimumBalance 8 ≤ payer.lamports) :
    process_initialize_counter program_id (counter :: payer :: sys :: rest) v =
      (.ok (),
        { counter with lamports := rentMinimumBalance 8, owner := program_id,
                       data := u64ToLeBytes v } ::
        { payer with lamports := payer.lamports - rentMinimumBalance 8 } ::
        sys :: rest) := by
  simp [process_initialize_counter, createAccount, hlam, hdat, hown, hpay,
    serializeWrite]

/-- C1: initializing with a 64-bit value `v` (on a fresh counter account
with a sufficiently funded payer) succeeds, and deserializing the
counter account's data afterwards yields a count equal to `v`. -/
theorem claim_C1_initialize_then_read (program_id v : Nat)
    (counter payer sys : AccountInfo) (rest : List AccountInfo)
    (hv : v < 2 ^ 64) (hlam : counter.lamports = 0) (hdat : counter.data = [])
    (hown : counter.owner = systemProgramId)
    (hpay : rentMinimumBalance 8 ≤ payer.lamports) :
    ∃ counterOut restOut,
      process_initialize_counter program_id (counter :: payer :: sys :: rest) v =
        (.ok (), counterOut :: restOut) ∧
      counterAccountTryFromSlice counterOut.data = .ok ⟨v⟩ := by
  refine ⟨_, _, process_initialize_counter_ok program_id v counter payer sys rest
    hlam hdat hown hpay, ?_⟩
  simp [counterAccountTryFromSlice, u64ToLeBytes_length, leValue_u64ToLeBytes_of_lt hv]

/-- C9: initialization allocates exactly 8 bytes of account space, and
the bytes it writes are precisely the little-endian encoding of the
initial value. -/
theorem claim_C9_initialize_writes_le_bytes (program_id v : Nat)
    (counter payer sys : AccountInfo) (rest : List AccountInfo)
    (hlam : counter.lamports = 0) (hdat : counter.data = [])
    (hown : counter.owner = systemProgramId)
    (hpay : rentMinimumBalance 8 ≤ payer.lamports) :
    ∃ counterOut restOut,
      process_initialize_counter program_id (counter :: payer :: sys :: rest) v =
        (.ok (), counterOut :: restOut) ∧
      counterOut.data = u64ToLeBytes v ∧ counterOut.data.length = 8 := by
  refine ⟨_, _, process_initialize_counter_ok program_id v counter payer sys rest
    hlam hdat hown hpay, rfl, u64ToLeBytes_length v⟩

/-! ### Instruction decoding -/

theorem decode_none_of_not_valid {bs : List Byte} (h : ¬ IsValidEncoding bs) :
    counterInstructionTryFromSlice bs = none := by
  match bs with
  | [] => rfl
  | tag :: rest =>
    unfold counterInstructionTryFromSlice
    by_cases h0 : tag.val = 0
    · have htag : tag = natToByte 0 := Fin.ext (by simp [natToByte, h0])
      by_cases h8 : rest.length = 8
      · exact absurd (Or.inl ⟨by simp [h8], by simp [htag]⟩) h
      · simp [h0, h8]
    · by_cases h1 : tag.val = 1
      · have htag : tag = natToByte 1 := Fin.ext (by simp [natToByte, h1])
        by_cases hl : rest.length = 0
        · have hnil : rest = [] := List.length_eq_zero.mp hl
          exact absurd (Or.inr (by simp [hnil, htag])) h
        · simp [h0, h1, hl]
      · simp [h0, h1]

/-- C5: any instruction payload that is not a valid tagged encoding
(tag 0 followed by exactly 8 bytes, or exactly the tag byte 1) makes
`process_instruction` fail with `InvalidInstructionData`, leaving every
account exactly as it was (neither handler runs). -/
theorem claim_C5_invalid_payload (program_id : Nat) (accounts : List AccountInfo)
    (bs : List Byte) (h : ¬ IsValidEncoding bs) :
    process_instruction program_id accounts bs =
      (.error .InvalidInstructionData, accounts) := by
  simp [process_instruction, decode_none_of_not_valid h]

/-! ### Error classification helpers -/

theorem counterAccountTryFromSlice_ok_length {bs : List Byte} {c : CounterAccount}
    (h : counterAccountTryFromSlice bs = .ok c) : bs.length = 8 := by
  unfold counterAccountTryFromSlice at h
  split at h
  · assumption
  · cases h

theorem counterAccountTryFromSlice_error {bs : List Byte} {e : ProgramError}
    (h : counterAccountTryFromSlice bs = .error e) : e = .BorshIoError := by
  unfold counterAccountTryFromSlice at h
  split at h
  · cases h
  · injection h with h1
    exact h1.symm

theorem createAccount_ok {payer dest p' d' : AccountInfo} {lam sp ow : Nat}
    (h : createAccount payer dest lam sp ow = .ok (p', d')) :
    p' = { payer with lamports := payer.lamports - lam } ∧
    d' = { dest with lamports := lam, owner := ow,
                     data := List.replicate sp (natToByte 0) } := by
  unfold createAccount at h
  split at h
  · simp only [Except.ok.injEq, Prod.mk.injEq] at h
    exact ⟨h.1.symm, h.2.symm⟩
  · cases h

theorem createAccount_error {payer dest : AccountInfo} {lam sp ow : Nat}
    {e : ProgramError}
    (h : createAccount payer dest lam sp ow = .error e) :
    e = .CreateAccountFailure := by
  unfold createAccount at h
  split at h
  · cases h
  · injection h with h1
    exact h1.symm

theorem serializeWrite_of_le {c : CounterAccount} {buf : List Byte}
    (h : 8 ≤ buf.length) :
    serializeWrite c buf = (.ok (), u64ToLeBytes c.count ++ buf.drop 8) := by
  simp [serializeWrite, h]

theorem process_increment_counter_error {program_id : Nat}
    {accounts st : List AccountInfo} {e : ProgramError}
    (h : process_increment_counter program_id accounts = (.error e, st)) :
    st = accounts ∧
    (e = .NotEnoughAccountKeys ∨ e = .IncorrectProgramId ∨ e = .BorshIoError ∨
     e = .InvalidAccountData) := by
  unfold process_increment_counter at h
  split at h
  · simp only [Prod.mk.injEq, Except.error.injEq] at h
    exact ⟨h.2.symm, Or.inl h.1.symm⟩
  · rename_i counter_account rest
    split at h
    · simp only [Prod.mk.injEq, Except.error.injEq] at h
      exact ⟨h.2.symm, Or.inr (Or.inl h.1.symm)⟩
    · rename_i hown
      split at h
      · rename_i eD heq
        simp only [Prod.mk.injEq, Except.error.injEq] at h
        have hB := counterAccountTryFromSlice_error heq
        exact ⟨h.2.symm, Or.inr (Or.inr (Or.inl (h.1.symm.trans hB)))⟩
      · rename_i cd heq
        split at h
        · simp only [Prod.mk.injEq, Except.error.injEq] at h
          exact ⟨h.2.symm, Or.inr (Or.inr (Or.inr h.1.symm))⟩
        · rename_i c' hca
          have hlen : 8 ≤ counter_account.data.length := by
            rw [counterAccountTryFromSlice_ok_length heq]
          split at h
          · simp at h
          · rename_i eS data' heqS
            rw [serializeWrite_of_le hlen] at heqS
            simp at heqS

theorem process_initialize_counter_error {program_id v : Nat}
    {accounts st : List AccountInfo} {e : ProgramError}
    (h : process_initialize_counter program_id accounts v = (.error e, st)) :
    st = accounts ∧ (e = .NotEnoughAccountKeys ∨ e = .CreateAccountFailure) := by
  unfold process_initialize_counter at h
  split at h
  · rename_i counter_account payer_account system_program rest
    dsimp only at h
    split at h
    · rename_i eC heq
      simp only [Prod.mk.injEq, Except.error.injEq] at h
      have hC := createAccount_error heq
      exact ⟨h.2.symm, Or.inr (h.1.symm.trans hC)⟩
    · rename_i pair payer' counter' heq
      have hdat := (createAccount_ok heq).2
      have hlen : 8 ≤ counter'.data.length := by
        rw [hdat]
        simp
      split at h
      · simp at h
      · rename_i eS data' heqS
        rw [serializeWrite_of_le hlen] at heqS
        simp at heqS
  · simp only [Prod.mk.injEq, Except.error.injEq] at h
    exact ⟨h.2.symm, Or.inl h.1.symm⟩

/-- C7: every error is fatal with no partial effect: whenever
`process_instruction` returns an error, the entire account list
(in particular the counter account's data) is exactly what it was
before the invocation. -/
theorem claim_C7_error_leaves_state_unchanged (program_id : Nat)
    (accounts : List AccountInfo) (bs : List Byte) (e : ProgramError)
    (st : List AccountInfo)
    (h : process_instruction program_id accounts bs = (.error e, st)) :
    st = accounts := by
  unfold process_instruction at h
  split at h
  · simp only [Prod.mk.injEq, Except.error.injEq] at h
    exact h.2.symm
  · exact (process_initialize_counter_error h).1
  · exact (process_increment_counter_error h).1

theorem process_instruction_error {program_id : Nat}
    {accounts st : List AccountInfo} {bs : List Byte} {e : ProgramError}
    (h : process_instruction program_id accounts bs = (.error e, st)) :
    st = accounts ∧
    (e = .InvalidInstructionData ∨ e = .NotEnoughAccountKeys ∨
     e = .IncorrectProgramId ∨ e = .BorshIoError ∨ e = .InvalidAccountData ∨
     e = .CreateAccountFailure) := by
  unfold process_instruction at h
  split at h
  · simp only [Prod.mk.injEq, Except.error.injEq] at h
    exact ⟨h.2.symm, Or.inl h.1.symm⟩
  · have hx := process_initialize_counter_error h
    exact ⟨hx.1, by tauto⟩
  · have hx := process_increment_counter_error h
    exact ⟨hx.1, by tauto⟩

theorem process_increment_counter_ok_head {program_id : Nat}
    {accounts st : List AccountInfo} {u : Unit}
    (h : process_increment_counter program_id accounts = (.ok u, st)) :
    ∃ b tail, st = b :: tail ∧ b.owner = program_id := by
  unfold process_increment_counter at h
  split at h
  · simp at h
  · rename_i counter_account rest
    split at h
    · simp at h
    · rename_i hown
      split at h
      · simp at h
      · rename_i cd heq
        split at h
        · simp at h
        · rename_i c' hca
          split at h
          · rename_i u' data' heqS
            simp only [Prod.mk.injEq] at h
            refine ⟨{ counter_account with data := data' }, rest, h.2.symm, ?_⟩
            simpa using not_ne_iff.mp hown
          · simp at h

theorem process_initialize_counter_ok_head {program_id v : Nat}
    {accounts st : List AccountInfo} {u : Unit}
    (h : process_initialize_counter program_id accounts v = (.ok u, st)) :
    ∃ b tail, st = b :: tail ∧ b.owner = program_id := by
  unfold process_initialize_counter at h
  split at h
  · rename_i counter_account payer_account system_program rest
    dsimp only at h
    split at h
    · simp at h
    · rename_i pair payer' counter' heq
      have hdat := (createAccount_ok heq).2
      split at h
      · rename_i u' data' heqS
        simp only [Prod.mk.injEq] at h
        refine ⟨{ counter' with data := data' }, payer' :: system_program :: rest,
          h.2.symm, ?_⟩
        rw [hdat]
      · simp at h
  · simp at h

/-- C6: the counter record's data is mutated only under a matching
owner: whenever an invocation of `process_instruction` changes the data
of the first (counter) account, that account's owner at the time of the
write equals the executing program id. -/
theorem claim_C6_mutation_only_when_owned (program_id : Nat)
    (accounts : List AccountInfo) (bs : List Byte) (a b : AccountInfo)
    (ha : accounts.head? = some a)
    (hb : (process_instruction program_id accounts bs).2.head? = some b)
    (hmut : b.data ≠ a.data) : b.owner = program_id := by
  rcases hres : process_instruction program_id accounts bs with ⟨r, st⟩
  rw [hres] at hb
  cases r with
  | error e =>
    have hst := (process_instruction_error hres).1
    subst hst
    rw [ha] at hb
    injection hb with hb'
    cases hb'
    exact absurd rfl hmut
  | ok u =>
    unfold process_instruction at hres
    split at hres
    · simp at hres
    · obtain ⟨b', tail, hst, hbown⟩ := process_initialize_counter_ok_head hres
      subst hst
      injection hb with hb'
      cases hb'
      exact hbown
    · obtain ⟨b', tail, hst, hbown⟩ := process_increment_counter_ok_head hres
      subst hst
      injection hb with hb'
      cases hb'
      exact hbown

/-- C8 counterexample: an increment at `u64::MAX` exits with
`InvalidAccountData` (the code reuses the invalid-account-data error for
its overflow check), which is not the arithmetic-overflow typed
failure. -/
theorem claim_C8_counterexample :
    process_instruction 1
        [{ key := 5, owner := 1, lamports := 946560,
           data := u64ToLeBytes (2 ^ 64 - 1) }] [natToByte 1] =
      (.error .InvalidAccountData,
        [{ key := 5, owner := 1, lamports := 946560,
           data := u64ToLeBytes (2 ^ 64 - 1) }]) ∧
    ProgramError.InvalidAccountData ≠ ProgramError.ArithmeticOverflow := by
  exact ⟨by rfl, by decide⟩

/-- C8 (amended): every failing invocation exits with one of the typed
failures the code actually uses — bad instruction data, missing account,
incorrect owner, borsh I/O, invalid account data, or allocation/funding
failure — each propagating unchanged; the program never produces the
dedicated arithmetic-overflow code, and an overflowing increment exits
with the invalid-account-data failure instead. -/
theorem claim_C8_amended_taxonomy :
    (∀ program_id accounts bs e st,
      process_instruction program_id accounts bs = (.error e, st) →
        (e = ProgramError.InvalidInstructionData ∨
         e = ProgramError.NotEnoughAccountKeys ∨
         e = ProgramError.IncorrectProgramId ∨
         e = ProgramError.BorshIoError ∨
         e = ProgramError.InvalidAccountData ∨
         e = ProgramError.CreateAccountFailure) ∧
        e ≠ ProgramError.ArithmeticOverflow) ∧
    (∀ program_id (counter : AccountInfo) (rest : List AccountInfo),
      counter.owner = program_id → counter.data.length = 8 →
      leValue counter.data = 2 ^ 64 - 1 →
      process_increment_counter program_id (counter :: rest) =
        (.error .InvalidAccountData, counter :: rest)) := by
  constructor
  · intro program_id accounts bs e st h
    have hx := process_instruction_error h
    refine ⟨hx.2, ?_⟩
    rcases hx.2 with h1 | h1 | h1 | h1 | h1 | h1 <;> subst h1 <;> decide
  · intro program_id counter rest hown hlen hmax
    have hlt := leValue_lt_2_64 hlen
    have hno : ¬ (leValue counter.data + 1 < 18446744073709551616) := by omega
    simp [process_increment_counter, hown, counterAccountTryFromSlice, hlen,
      checkedAdd, hno]

/-! ### Concrete witnesses -/

theorem claim_C1_witness :
    ∃ counterOut restOut,
      process_initialize_counter 1
          [⟨7, 0, 0, []⟩, ⟨8, 0, 1000000, []⟩, ⟨0, 0, 0, []⟩] 42 =
        (.ok (), counterOut :: restOut) ∧
      counterAccountTryFromSlice counterOut.data = .ok ⟨42⟩ :=
  claim_C1_initialize_then_read 1 42 ⟨7, 0, 0, []⟩ ⟨8, 0, 1000000, []⟩
    ⟨0, 0, 0, []⟩ [] (by norm_num) rfl rfl rfl (by decide)

theorem claim_C2_witness :
    incrementN 1 1 [⟨5, 1, 0, u64ToLeBytes 42⟩] =
      (.ok (), [⟨5, 1, 0, u64ToLeBytes 43⟩]) := by
  have h := claim_C2_incrementN_adds 1 42 1 ⟨5, 1, 0, u64ToLeBytes 42⟩ [] rfl rfl
    (by norm_num)
  simpa using h

theorem claim_C3_witness :
    ((process_increment_counter 1
        [⟨5, 1, 946560, u64ToLeBytes (2 ^ 64 - 1)⟩]).1 ≠ .ok () ↔
      leValue (u64ToLeBytes (2 ^ 64 - 1)) = 2 ^ 64 - 1) ∧
    (leValue (u64ToLeBytes (2 ^ 64 - 1)) = 2 ^ 64 - 1 →
      process_increment_counter 1 [⟨5, 1, 946560, u64ToLeBytes (2 ^ 64 - 1)⟩] =
        (.error .InvalidAccountData,
          [⟨5, 1, 946560, u64ToLeBytes (2 ^ 64 - 1)⟩])) :=
  claim_C3_increment_overflow_iff 1 ⟨5, 1, 946560, u64ToLeBytes (2 ^ 64 - 1)⟩ []
    rfl (u64ToLeBytes_length _)

theorem claim_C4_witness :
    process_increment_counter 1 [⟨5, 2, 0, u64ToLeBytes 3⟩] =
      (.error .IncorrectProgramId, [⟨5, 2, 0, u64ToLeBytes 3⟩]) :=
  claim_C4_increment_wrong_owner 1 ⟨5, 2, 0, u64ToLeBytes 3⟩ [] (by decide)

theorem claim_C5_witness :
    process_instruction 1 [] [natToByte 5] =
      (.error .InvalidInstructionData, []) :=
  claim_C5_invalid_payload 1 [] [natToByte 5] (by decide)

theorem claim_C6_witness :
    (⟨5, 1, 0, u64ToLeBytes 1⟩ : AccountInfo).owner = 1 :=
  claim_C6_mutation_only_when_owned 1 [⟨5, 1, 0, u64ToLeBytes 0⟩] [natToByte 1]
    ⟨5, 1, 0, u64ToLeBytes 0⟩ ⟨5, 1, 0, u64ToLeBytes 1⟩ rfl (by decide) (by decide)

theorem claim_C7_witness :
    (process_instruction 1 [⟨5, 2, 0, u64ToLeBytes 3⟩] [natToByte 1]).2 =
      [⟨5, 2, 0, u64ToLeBytes 3⟩] := by
  have h : process_instruction 1 [⟨5, 2, 0, u64ToLeBytes 3⟩] [natToByte 1] =
      (.error .IncorrectProgramId,
        (process_instruction 1 [⟨5, 2, 0, u64ToLeBytes 3⟩] [natToByte 1]).2) := by
    rfl
  exact claim_C7_error_leaves_state_unchanged 1 _ _ _ _ h

theorem claim_C8_amended_witness :
    ProgramError.InvalidInstructionData ≠ ProgramError.ArithmeticOverflow ∧
    process_increment_counter 2
        [{ key := 6, owner := 2, lamports := 946560,
           data := u64ToLeBytes (2 ^ 64 - 1) }] =
      (.error .InvalidAccountData,
        [{ key := 6, owner := 2, lamports := 946560,
           data := u64ToLeBytes (2 ^ 64 - 1) }]) := by
  constructor
  · exact (claim_C8_amended_taxonomy.1 1 [] [] .InvalidInstructionData [] (by rfl)).2
  · exact claim_C8_amended_taxonomy.2 2 _ [] rfl (u64ToLeBytes_length _)
      (leValue_u64ToLeBytes_of_lt (by norm_num))

theorem claim_C9_witness :
    ∃ counterOut restOut,
      process_initialize_counter 3
          [⟨9, 0, 0, []⟩, ⟨10, 0, 2000000, []⟩, ⟨0, 0, 0, []⟩] 7 =
        (.ok (), counterOut :: restOut) ∧
      counterOut.data = u64ToLeBytes 7 ∧ counterOut.data.length = 8 :=
  claim_C9_initialize_writes_le_bytes 3 7 ⟨9, 0, 0, []⟩ ⟨10, 0, 2000000, []⟩
    ⟨0, 0, 0, []⟩ [] rfl rfl rfl (by decide)

theorem claim_C10_witness :
    process_increment_counter 1 [⟨5, 1, 0, List.replicate 9 (natToByte 3)⟩] =
      (.error .BorshIoError, [⟨5, 1, 0, List.replicate 9 (natToByte 3)⟩]) :=
  claim_C10_increment_bad_length 1 ⟨5, 1, 0, List.replicate 9 (natToByte 3)⟩ []
    rfl (by decide)
